import Mathlib

/-!
Shallow embedding of the Board component logic of
`src/components/Board/Board.tsx` and `src/components/Board/BoardLane.tsx`
(the `microsoft-teams-ui-component-library` Kanban board), together with
proofs of the drag-and-drop reflow, lane reordering and preparation
properties stated for it.

JS objects with string keys are modelled as association lists in key
insertion order (the `Object.keys` enumeration order for non-index string
keys).  JS numbers used as ranks and indices are modelled as `Int` / `Nat`.
Text objects (`TTextObject`) are modelled as plain strings (`getText` is the
identity on them for this purpose).
-/

namespace Board

/-- An entry of the flat item mapping (`TBoardItems`): fields of `IBoardItem`
used by the board logic (`lane`, `order`, `title`); further custom fields do
not participate in any of the logic below and are omitted. -/
structure IBoardItem where
  lane : String
  order : Int
  title : String
deriving DecidableEq, Repr

/-- An `IPreparedBoardItem`: an `IBoardItem` with the `itemKey` that
`prepareBoardItems` stamps onto it. -/
structure IPreparedBoardItem where
  itemKey : String
  lane : String
  order : Int
  title : String
deriving DecidableEq, Repr

/-- `type TBoardLane = { title: TTextObject }`. -/
structure TBoardLane where
  title : String
deriving DecidableEq, Repr

/-- A JS object with string keys: an association list in key insertion
order.  JS object keys are unique, so well-formed states have `Nodup` keys;
operations below are transcriptions of the JS under that discipline. -/
abbrev AssocList (α : Type) := List (String × α)

/-- `type TBoardLanes = { [laneKey: string]: TBoardLane }`. -/
abbrev TBoardLanes := AssocList TBoardLane

/-- `IPreparedBoardItems`: lane key to ordered sequence of prepared items. -/
abbrev IPreparedBoardItems := AssocList (List IPreparedBoardItem)

/-- `Object.keys`. -/
def keys {α : Type} (m : AssocList α) : List String := m.map Prod.fst

/-- Property lookup `m[k]` on a JS object: first binding of `k`. -/
def lookupA {α : Type} : AssocList α → String → Option α
  | [], _ => none
  | (k', v) :: rest, k => if k' = k then some v else lookupA rest k

/-- Replace the value bound to `k` (first binding; JS keys are unique) by
`f` of it.  This is the in-place mutation `m[k] = f(m[k])`. -/
def updateFirst {α : Type} : AssocList α → String → (α → α) → AssocList α
  | [], _, _ => []
  | (k', v) :: rest, k, f =>
    if k' = k then (k', f v) :: rest else (k', v) :: updateFirst rest k f

/-- `Object.assign(m, {[k]: v})`: update `k` in place when present,
otherwise append the new binding at the end of the key order. -/
def objectAssign {α : Type} (m : AssocList α) (k : String) (v : α) : AssocList α :=
  if (lookupA m k).isSome then updateFirst m k (fun _ => v) else m ++ [(k, v)]

/-- The assignment `item.itemKey = itemKey` performed by `prepareBoardItems`
while grouping. -/
def toPrepared (itemKey : String) (item : IBoardItem) : IPreparedBoardItem :=
  { itemKey := itemKey, lane := item.lane, order := item.order, title := item.title }

/-- One step of the grouping reduce in `prepareBoardItems`:
`if (acc.hasOwnProperty(item.lane)) acc[item.lane].push(item); else acc[item.lane] = [item]`. -/
def groupStep (acc : IPreparedBoardItems) (entry : String × IBoardItem) :
    IPreparedBoardItems :=
  let it := toPrepared entry.1 entry.2
  if (lookupA acc it.lane).isSome then updateFirst acc it.lane (fun l => l ++ [it])
  else acc ++ [(it.lane, [it])]

/-- The comparator `.sort((a, b) => a.order - b.order)`. -/
def sortByOrder (l : List IPreparedBoardItem) : List IPreparedBoardItem :=
  l.insertionSort (fun a b => a.order ≤ b.order)

/-- `prepareBoardItems`: group the flat item mapping by `lane` (in item key
order), then build the prepared mapping over the lane keys, sorting each
group by `order` and defaulting to the empty sequence. -/
def prepareBoardItems (items : AssocList IBoardItem) (lanes : TBoardLanes) :
    IPreparedBoardItems :=
  let unsorted := items.foldl groupStep []
  (keys lanes).foldl
    (fun acc laneKey =>
      acc ++ [(laneKey,
        match lookupA unsorted laneKey with
        | some l => sortByOrder l
        | none => [])])
    []

/-- The value the second reduce of `prepareBoardItems` binds to a lane key:
the ternary `unsorted.hasOwnProperty(laneKey) ? sort : []`, as a named
function of the grouped mapping and the lane key. -/
def laneValue (unsorted : IPreparedBoardItems) (laneKey : String) :
    List IPreparedBoardItem :=
  match lookupA unsorted laneKey with
  | some l => sortByOrder l
  | none => []

/-- The prepared form of the flat item mapping, in item key order:
each entry with its `itemKey` stamped on, before grouping. -/
def preparedList (items : AssocList IBoardItem) : List IPreparedBoardItem :=
  items.map (fun e => toPrepared e.1 e.2)

/-- How one lane's accumulated group grows across the grouping fold:
`none` stays `none` when no item of the lane arrives, otherwise the
arriving items are appended. -/
def combineG (o : Option (List IPreparedBoardItem)) (fs : List IPreparedBoardItem) :
    Option (List IPreparedBoardItem) :=
  match o with
  | some l => some (l ++ fs)
  | none => match fs with
    | [] => none
    | _ => some fs

/-- The number of occurrences of items with a given `itemKey` across all
lanes of a prepared items mapping. -/
def countItemKey (m : IPreparedBoardItems) (key : String) : Nat :=
  (m.map (fun e => e.2.countP (fun it => it.itemKey = key))).sum

/-- `resetOrder`: assign the new order to an item (in place in JS). -/
def resetOrder (item : IPreparedBoardItem) (newOrder : Int) : IPreparedBoardItem :=
  { item with order := newOrder }

/-- `.map(resetOrder)`: `Array.prototype.map` passes the element index as the
second argument, so each item's `order` becomes its index, counting from `i`. -/
def resetOrderFrom (i : Nat) : List IPreparedBoardItem → List IPreparedBoardItem
  | [] => []
  | it :: rest => resetOrder it (i : Int) :: resetOrderFrom (i + 1) rest

/-- The full re-rank pass `arrangedItems[laneKey].map(resetOrder)`. -/
def resetOrderAll (l : List IPreparedBoardItem) : List IPreparedBoardItem :=
  resetOrderFrom 0 l

/-- The index at which `Array.prototype.splice` operates: a negative start
counts from the end and is clamped below by `0`; a non-negative start is
clamped above by the length. -/
def jsSpliceStart (len : Nat) (start : Int) : Nat :=
  if start < 0 then (max ((len : Int) + start) 0).toNat else min start.toNat len

/-- `l.splice(start, 1)`: the pair (removed elements, remaining array). -/
def spliceRemoveOne {α : Type} (l : List α) (start : Int) : List α × List α :=
  let i := jsSpliceStart l.length start
  ((l.drop i).take 1, l.take i ++ l.drop (i + 1))

/-- `l.splice(start, 0, x)`: insert `x` at the clamped start index. -/
def spliceInsert {α : Type} (l : List α) (start : Int) (x : α) : List α :=
  let i := jsSpliceStart l.length start
  l.take i ++ x :: l.drop i

/-- A `DraggableLocation` of react-beautiful-dnd: droppable id and a
non-negative index. -/
structure DraggableLocation where
  droppableId : String
  index : Nat
deriving DecidableEq, Repr

/-- The accessibility announcement produced by `onDragEnd`: either the
drag-end message (item title, `Math.max(1, destination.index + 1)`, the
destination lane's length before the commit, the destination lane title)
or the drag-cancel message (item title). -/
inductive DragAnnouncement
  | dragEnd (itemTitle : String) (itemPosition : Nat) (laneLength : Nat) (laneTitle : String)
  | dragCancel (itemTitle : String)
deriving DecidableEq, Repr

/-- The observable outcome of one `onDragEnd` call: the announcement, the
items state afterwards, whether `setArrangedItems` was called (with
`cloneDeep` of the mutated collection — value-equal to it), and whether
`setPlaceholderPosition(null)` was called. -/
structure DragEndResult where
  announcement : DragAnnouncement
  arrangedItems : IPreparedBoardItems
  itemsSet : Bool
  placeholderCleared : Bool
deriving DecidableEq, Repr

/-- The `onDragEnd` handler of `BoardStandalone`.  `none` models a runtime
`TypeError`: reading a property of `undefined` when the source lane key is
absent from `arrangedItems`, when no item of the source lane has the dragged
id (`boardItem.title`), when the destination lane key is absent from
`arrangedLanes` or `arrangedItems`, or when `movingItems[0]` is `undefined`
(source index out of range) so that the re-rank `map(resetOrder)` of the
destination lane dereferences `undefined`. -/
def onDragEnd (arrangedLanes : TBoardLanes) (arrangedItems : IPreparedBoardItems)
    (draggableId : String) (source : DraggableLocation)
    (destination : Option DraggableLocation) : Option DragEndResult :=
  match lookupA arrangedItems source.droppableId with
  | none => none
  | some sourceList =>
    match sourceList.find? (fun boardItem => boardItem.itemKey = draggableId) with
    | none => none
    | some boardItem =>
      match destination with
      | none =>
        some { announcement := .dragCancel boardItem.title
               arrangedItems := arrangedItems
               itemsSet := false
               placeholderCleared := false }
      | some dest =>
        match lookupA arrangedLanes dest.droppableId,
              lookupA arrangedItems dest.droppableId with
        | some boardLane, some destList =>
          let a := DragAnnouncement.dragEnd boardItem.title
            (max 1 (dest.index + 1)) destList.length boardLane.title
          let removed := spliceRemoveOne sourceList (source.index : Int)
          match removed.1 with
          | [] => none
          | movingItem :: _ =>
            let afterRemove :=
              updateFirst arrangedItems source.droppableId
                (fun _ => resetOrderAll removed.2)
            let afterInsert :=
              updateFirst afterRemove dest.droppableId
                (fun l => resetOrderAll (spliceInsert l (dest.index : Int) movingItem))
            some { announcement := a
                   arrangedItems := afterInsert
                   itemsSet := true
                   placeholderCleared := true }
        | _, _ => none

/-- `Array.prototype.indexOf`: first index of `x`, or `-1` when absent. -/
def jsIndexOf (l : List String) (x : String) : Int :=
  match l.findIdx? (fun y => y = x) with
  | some i => (i : Int)
  | none => -1

/-- The reduce at the end of `moveLane`: rebuild the lane mapping in the
order of the given key list, binding each key to its value in the old
mapping.  Every key handed to it by `moveLane` is a key of `arrangedLanes`,
so the lookup always succeeds there (a missing key would be bound to
`undefined` in JS). -/
def rebuildLanes (arrangedLanes : TBoardLanes) (laneKeys : List String) : TBoardLanes :=
  laneKeys.foldl
    (fun acc currentLaneKey =>
      match lookupA arrangedLanes currentLaneKey with
      | some lane => acc ++ [(currentLaneKey, lane)]
      | none => acc)
    []

/-- The `moveLane` handler: splice the key out of `Object.keys(arrangedLanes)`
at its index, splice it back in at index `from + delta`, and rebuild the lane
mapping in the new key order.  `none` models the degenerate empty-lanes case,
where `laneKeys.splice(from, 1)[0]` is `undefined` and the JS code builds a
mapping with the single key `"undefined"`; every key of the rebuilt order is
otherwise a key of `arrangedLanes`, so its lookup succeeds. -/
def moveLane (arrangedLanes : TBoardLanes) (laneKey : String) (delta : Int) :
    Option TBoardLanes :=
  let laneKeys := keys arrangedLanes
  let fr := jsIndexOf laneKeys laneKey
  let removed := spliceRemoveOne laneKeys fr
  match removed.1 with
  | [moved] =>
    let newKeys := spliceInsert removed.2 (fr + delta) moved
    some (rebuildLanes arrangedLanes newKeys)
  | _ => none

/-- The outcome of the `exitPendingLane` callback: lane and item states and
the adding-lane flag afterwards. -/
structure ExitPendingLaneResult where
  arrangedLanes : TBoardLanes
  arrangedItems : IPreparedBoardItems
  addingLane : Bool
deriving DecidableEq, Repr

/-- The `exitPendingLane` callback handed to the pending `BoardLane`:
on a non-empty submitted value, `Object.assign` the new lane (titled with the
value) and an empty item sequence under a fresh `uniqueId("sl")` key —
modelled by the `newLaneKey` argument — and clear the adding-lane flag;
otherwise only clear the flag.  `BoardLane` submits the input's value on blur
and Enter, and the empty string on Escape. -/
def exitPendingLane (arrangedLanes : TBoardLanes) (arrangedItems : IPreparedBoardItems)
    (newLaneKey : String) (value : String) : ExitPendingLaneResult :=
  if value.length > 0 then
    { arrangedLanes := objectAssign arrangedLanes newLaneKey { title := value }
      arrangedItems := objectAssign arrangedItems newLaneKey ([] : List IPreparedBoardItem)
      addingLane := false }
  else
    { arrangedLanes := arrangedLanes
      arrangedItems := arrangedItems
      addingLane := false }

/-- A child element of the droppable container as read by
`getClientYChildren`: its rendered height and its
`data-rbd-draggable-id` attribute (`none` when the attribute is absent). -/
structure ChildElement where
  clientHeight : Nat
  draggableId : Option String
deriving DecidableEq, Repr

/-- The dragged element as read by `getPlaceholderPosition`: whether it has a
`parentNode`, and its client height and width. -/
structure DraggableElement where
  hasParentNode : Bool
  clientHeight : Nat
  clientWidth : Nat
deriving DecidableEq, Repr

/-- `type TPlaceholderPosition = null | [number, number, number, number]`. -/
abbrev TPlaceholderPosition := Option (Nat × Nat × Nat × Nat)

/-- `getClientYChildren`: the container's children that carry a
`data-rbd-draggable-id` attribute different from the dragged id, truncated to
the first `endIndex` of them. -/
def getClientYChildren (children : List ChildElement) (draggableId : String)
    (endIndex : Nat) : List ChildElement :=
  (children.filter (fun c =>
    match c.draggableId with
    | some childId => childId ≠ draggableId
    | none => false)).take endIndex

/-- `getPlaceholderPosition`: `null` when the draggable is missing or has no
parent node; otherwise `[20, 2 + Σ (child height + 8), width, height]`. -/
def getPlaceholderPosition (draggable : Option DraggableElement)
    (clientYChildren : List ChildElement) : TPlaceholderPosition :=
  match draggable with
  | none => none
  | some d =>
    if d.hasParentNode then
      some (20, clientYChildren.foldl (fun acc c => acc + c.clientHeight + 8) 2,
        d.clientWidth, d.clientHeight)
    else none

instance : IsTotal IPreparedBoardItem (fun a b => a.order ≤ b.order) :=
  ⟨fun a b => Int.le_total a.order b.order⟩

instance : IsTrans IPreparedBoardItem (fun a b => a.order ≤ b.order) :=
  ⟨fun _ _ _ h1 h2 => le_trans h1 h2⟩

/-! ### Association list lemmas -/

theorem lookupA_append {α : Type} (m1 m2 : AssocList α) (k : String) :
    lookupA (m1 ++ m2) k =
      match lookupA m1 k with
      | some v => some v
      | none => lookupA m2 k := by
  induction m1 with
  | nil => simp [lookupA]
  | cons e rest ih =>
    obtain ⟨k1, v⟩ := e
    by_cases h : k1 = k <;> simp [lookupA, h, ih]
theorem lookupA_isSome_iff_mem {α : Type} (m : AssocList α) (k : String) :
    (lookupA m k).isSome ↔ k ∈ keys m := by
  induction m with
  | nil => simp [lookupA, keys]
  | cons e rest ih =>
    obtain ⟨k1, v⟩ := e
    have hkeys : keys ((k1, v) :: rest) = k1 :: keys rest := rfl
    rw [hkeys, List.mem_cons]
    by_cases h : k1 = k
    · subst h
      simp [lookupA]
    · simp only [lookupA, if_neg h]
      rw [ih]
      constructor
      · exact fun hs => Or.inr hs
      · rintro (h1 | h1)
        · exact absurd h1.symm h
        · exact h1

theorem lookupA_eq_none_of_not_mem {α : Type} {m : AssocList α} {k : String}
    (h : k ∉ keys m) : lookupA m k = none := by
  have hs := (lookupA_isSome_iff_mem m k).not.mpr h
  cases hm : lookupA m k with
  | none => rfl
  | some v => rw [hm] at hs; simp at hs

theorem lookupA_updateFirst_self {α : Type} (m : AssocList α) (k : String) (f : α → α) :
    lookupA (updateFirst m k f) k = (lookupA m k).map f := by
  induction m with
  | nil => simp [lookupA, updateFirst]
  | cons e rest ih =>
    obtain ⟨k1, v⟩ := e
    by_cases h : k1 = k <;> simp [lookupA, updateFirst, h, ih]

theorem lookupA_updateFirst_ne {α : Type} (m : AssocList α) (k k2 : String) (f : α → α)
    (h : k2 ≠ k) : lookupA (updateFirst m k f) k2 = lookupA m k2 := by
  induction m with
  | nil => simp [updateFirst]
  | cons e rest ih =>
    obtain ⟨k1, v⟩ := e
    by_cases h1 : k1 = k
    · simp only [updateFirst, if_pos h1, lookupA]
      have h2 : ¬(k1 = k2) := fun hx => h (hx ▸ h1)
      rw [if_neg h2, if_neg h2]
    · simp only [updateFirst, if_neg h1, lookupA]
      by_cases h2 : k1 = k2
      · rw [if_pos h2, if_pos h2]
      · rw [if_neg h2, if_neg h2, ih]

theorem keys_updateFirst {α : Type} (m : AssocList α) (k : String) (f : α → α) :
    keys (updateFirst m k f) = keys m := by
  induction m with
  | nil => rfl
  | cons e rest ih =>
    obtain ⟨k1, v⟩ := e
    by_cases h : k1 = k
    · simp [updateFirst, keys, h]
    · have h1 : keys ((k1, v) :: updateFirst rest k f) = k1 :: keys (updateFirst rest k f) := rfl
      have h2 : keys ((k1, v) :: rest) = k1 :: keys rest := rfl
      simp only [updateFirst, if_neg h, h1, h2, ih]

theorem keys_map_pair {β : Type} (g : String → β) (ks : List String) :
    keys (ks.map (fun x => (x, g x))) = ks := by
  induction ks with
  | nil => rfl
  | cons x rest ih =>
    have h1 : keys ((x, g x) :: rest.map (fun x => (x, g x))) =
        x :: keys (rest.map (fun x => (x, g x))) := rfl
    simp only [List.map_cons, h1, ih]

theorem lookupA_map_of_mem {β : Type} (g : String → β) {k : String} :
    ∀ {ks : List String}, k ∈ ks →
      lookupA (ks.map (fun x => (x, g x))) k = some (g k) := by
  intro ks
  induction ks with
  | nil => intro h; simp at h
  | cons x rest ih =>
    intro h
    by_cases hx : x = k
    · subst hx; simp [lookupA]
    · have hk : k ∈ rest := by
        rcases List.mem_cons.mp h with h1 | h1
        · exact absurd h1.symm hx
        · exact h1
      simp [lookupA, hx, ih hk]

theorem lookupA_map_of_not_mem {β : Type} (g : String → β) {k : String}
    {ks : List String} (h : k ∉ ks) :
    lookupA (ks.map (fun x => (x, g x))) k = none := by
  apply lookupA_eq_none_of_not_mem
  rw [keys_map_pair]
  exact h

/-! ### The grouping fold of `prepareBoardItems` -/

theorem combineG_nil (o : Option (List IPreparedBoardItem)) : combineG o [] = o := by
  cases o <;> simp [combineG]

theorem groupStep_eq (acc : IPreparedBoardItems) (entry : String × IBoardItem) :
    groupStep acc entry =
      if (lookupA acc (toPrepared entry.1 entry.2).lane).isSome then
        updateFirst acc (toPrepared entry.1 entry.2).lane
          (fun l => l ++ [toPrepared entry.1 entry.2])
      else acc ++ [((toPrepared entry.1 entry.2).lane, [toPrepared entry.1 entry.2])] := rfl

theorem lookupA_groupStep (acc : IPreparedBoardItems) (entry : String × IBoardItem)
    (k : String) :
    lookupA (groupStep acc entry) k =
      combineG (lookupA acc k)
        (if (toPrepared entry.1 entry.2).lane = k then [toPrepared entry.1 entry.2]
         else []) := by
  rw [groupStep_eq]
  by_cases hl : (toPrepared entry.1 entry.2).lane = k
  · rw [if_pos hl, hl]
    cases hacc : lookupA acc k with
    | some v =>
      simp only [hacc, Option.isSome_some, if_true]
      rw [lookupA_updateFirst_self, hacc]
      simp [combineG]
    | none =>
      simp only [hacc, Option.isSome_none, Bool.false_eq_true, if_false]
      rw [lookupA_append, hacc]
      simp [lookupA, combineG]
  · rw [if_neg hl, combineG_nil]
    by_cases hs : (lookupA acc (toPrepared entry.1 entry.2).lane).isSome
    · rw [if_pos hs]
      exact lookupA_updateFirst_ne _ _ _ _ (fun hx => hl hx.symm)
    · rw [if_neg hs, lookupA_append]
      cases hacc : lookupA acc k with
      | some v => simp
      | none => simp [lookupA, hl]

theorem groupFold (k : String) :
    ∀ (its : AssocList IBoardItem) (acc : IPreparedBoardItems),
      lookupA (its.foldl groupStep acc) k =
        combineG (lookupA acc k)
          ((preparedList its).filter (fun it => it.lane = k)) := by
  intro its
  induction its with
  | nil => intro acc; simp [preparedList, combineG_nil]
  | cons e rest ih =>
    intro acc
    rw [List.foldl_cons, ih, lookupA_groupStep]
    by_cases hl : (toPrepared e.1 e.2).lane = k
    · rw [if_pos hl]
      have hfil : (preparedList (e :: rest)).filter (fun it => it.lane = k) =
          toPrepared e.1 e.2 :: (preparedList rest).filter (fun it => it.lane = k) := by
        simp [preparedList, List.filter_cons, hl]
      rw [hfil]
      cases hacc : lookupA acc k <;>
        cases hrest : (preparedList rest).filter (fun it => it.lane = k) <;>
          simp [combineG]
    · rw [if_neg hl]
      have hfil : (preparedList (e :: rest)).filter (fun it => it.lane = k) =
          (preparedList rest).filter (fun it => it.lane = k) := by
        simp [preparedList, List.filter_cons, hl]
      rw [hfil, combineG_nil]


/-! ### Characterization of `prepareBoardItems` -/

theorem foldl_append_pairs {β : Type} (g : String → β) :
    ∀ (ks : List String) (init : List (String × β)),
      ks.foldl (fun acc k => acc ++ [(k, g k)]) init =
        init ++ ks.map (fun k => (k, g k)) := by
  intro ks
  induction ks with
  | nil => intro init; simp
  | cons x rest ih => intro init; simp [ih]

theorem sortByOrder_sorted (l : List IPreparedBoardItem) :
    (sortByOrder l).Sorted (fun a b => a.order ≤ b.order) :=
  List.sorted_insertionSort _ l

theorem sortByOrder_perm (l : List IPreparedBoardItem) : List.Perm (sortByOrder l) l :=
  List.perm_insertionSort _ l

/-- `laneValue` of the grouped mapping is the sorted filter of the prepared
item list. -/
theorem laneValue_groupFold (items : AssocList IBoardItem) (k : String) :
    laneValue (items.foldl groupStep []) k =
      sortByOrder ((preparedList items).filter (fun it => it.lane = k)) := by
  have hg := groupFold k items []
  have hnone : lookupA ([] : IPreparedBoardItems) k = none := rfl
  rw [hnone] at hg
  unfold laneValue
  cases hfil : (preparedList items).filter (fun it => it.lane = k) with
  | nil =>
    rw [hfil] at hg
    simp [combineG] at hg
    rw [hg]
    rfl
  | cons f fs =>
    rw [hfil] at hg
    simp [combineG] at hg
    rw [hg]

/-- The value `prepareBoardItems` binds to a lane key: the items of that
lane, sorted by `order`. -/
theorem prepareBoardItems_eq (items : AssocList IBoardItem) (lanes : TBoardLanes) :
    prepareBoardItems items lanes =
      (keys lanes).map (fun k =>
        (k, sortByOrder ((preparedList items).filter (fun it => it.lane = k)))) := by
  have hfold : prepareBoardItems items lanes =
      (keys lanes).foldl
        (fun acc laneKey => acc ++ [(laneKey, laneValue (items.foldl groupStep []) laneKey)])
        [] := rfl
  rw [hfold, foldl_append_pairs (laneValue (items.foldl groupStep [])), List.nil_append]
  congr 1
  funext k
  rw [laneValue_groupFold]

theorem keys_prepareBoardItems (items : AssocList IBoardItem) (lanes : TBoardLanes) :
    keys (prepareBoardItems items lanes) = keys lanes := by
  rw [prepareBoardItems_eq, keys_map_pair]


/-! ### Claims C7 and C8: item preparation -/

/-- Claim C7: for every item mapping and lane mapping, `prepareBoardItems`
returns a mapping whose keys are exactly the lane keys of the lanes mapping;
its value at each lane key is a sequence containing exactly the items whose
`lane` field equals that key (as a permutation), in non-decreasing `order`;
a lane no item references maps to the empty sequence. -/
theorem prepareBoardItems_groups (items : AssocList IBoardItem) (lanes : TBoardLanes)
    (k : String) (hk : k ∈ keys lanes) :
    keys (prepareBoardItems items lanes) = keys lanes ∧
    ∃ l, lookupA (prepareBoardItems items lanes) k = some l ∧
      l.Sorted (fun a b => a.order ≤ b.order) ∧
      List.Perm l ((preparedList items).filter (fun it => it.lane = k)) ∧
      ((preparedList items).filter (fun it => it.lane = k) = [] → l = []) := by
  refine ⟨keys_prepareBoardItems items lanes, ?_⟩
  rw [prepareBoardItems_eq]
  refine ⟨_,
    lookupA_map_of_mem (fun x => sortByOrder ((preparedList items).filter (fun it => it.lane = x))) hk,
    sortByOrder_sorted _, sortByOrder_perm _, ?_⟩
  intro h
  show sortByOrder ((preparedList items).filter (fun it => it.lane = k)) = []
  rw [h]
  rfl

/-- Witness for C7 at a concrete board: two lanes, two items of lane `A`
given out of order, one item of a non-existent lane `Z`. -/
theorem prepareBoardItems_groups_witness :
    "A" ∈ keys [("A", (⟨"Lane A"⟩ : TBoardLane)), ("B", ⟨"Lane B"⟩)] ∧
    (keys (prepareBoardItems
        [("i1", ⟨"A", 5, "x"⟩), ("i2", ⟨"A", 3, "y"⟩), ("i3", ⟨"Z", 0, "z"⟩)]
        [("A", ⟨"Lane A"⟩), ("B", ⟨"Lane B"⟩)]) =
      keys [("A", (⟨"Lane A"⟩ : TBoardLane)), ("B", ⟨"Lane B"⟩)] ∧
    ∃ l, lookupA (prepareBoardItems
        [("i1", ⟨"A", 5, "x"⟩), ("i2", ⟨"A", 3, "y"⟩), ("i3", ⟨"Z", 0, "z"⟩)]
        [("A", ⟨"Lane A"⟩), ("B", ⟨"Lane B"⟩)]) "A" = some l ∧
      l.Sorted (fun a b => a.order ≤ b.order) ∧
      List.Perm l ((preparedList
        [("i1", ⟨"A", 5, "x"⟩), ("i2", ⟨"A", 3, "y"⟩), ("i3", ⟨"Z", 0, "z"⟩)]).filter
          (fun it => it.lane = "A")) ∧
      ((preparedList
        [("i1", ⟨"A", 5, "x"⟩), ("i2", ⟨"A", 3, "y"⟩), ("i3", ⟨"Z", 0, "z"⟩)]).filter
          (fun it => it.lane = "A") = [] → l = [])) :=
  ⟨by decide, prepareBoardItems_groups _ _ "A" (by decide)⟩

/-- Claim C8: an item whose `lane` is not a key of the lanes mapping is
silently absorbed: `prepareBoardItems` is total (no error is raised), its
result has no entry under the non-existent lane key, and the malformed item
appears in no lane group of the result. -/
theorem prepareBoardItems_malformed (items : AssocList IBoardItem) (lanes : TBoardLanes)
    (f : String) (hf : f ∉ keys lanes) :
    f ∉ keys (prepareBoardItems items lanes) ∧
    lookupA (prepareBoardItems items lanes) f = none ∧
    (∀ itemKey item, (itemKey, item) ∈ items → item.lane = f →
      ∀ e ∈ prepareBoardItems items lanes, toPrepared itemKey item ∉ e.2) := by
  refine ⟨?_, ?_, ?_⟩
  · rw [keys_prepareBoardItems]
    exact hf
  · rw [prepareBoardItems_eq]
    exact lookupA_map_of_not_mem _ hf
  · intro itemKey item _ hlane e he hin
    rw [prepareBoardItems_eq] at he
    obtain ⟨x, hx, rfl⟩ := List.mem_map.mp he
    have h2 : toPrepared itemKey item ∈
        (preparedList items).filter (fun it => it.lane = x) :=
      (sortByOrder_perm _).mem_iff.mp hin
    have h3 : (toPrepared itemKey item).lane = x := by
      have := List.of_mem_filter h2
      simpa using this
    have h4 : x = f := by
      have h5 : (toPrepared itemKey item).lane = item.lane := rfl
      rw [h5, hlane] at h3
      exact h3.symm
    rw [h4] at hx
    exact hf hx

/-- Witness for C8 at the same concrete board: item `i3` references the
non-existent lane `Z`. -/
theorem prepareBoardItems_malformed_witness :
    "Z" ∉ keys [("A", (⟨"Lane A"⟩ : TBoardLane)), ("B", ⟨"Lane B"⟩)] ∧
    ("Z" ∉ keys (prepareBoardItems
        [("i1", ⟨"A", 5, "x"⟩), ("i2", ⟨"A", 3, "y"⟩), ("i3", ⟨"Z", 0, "z"⟩)]
        [("A", ⟨"Lane A"⟩), ("B", ⟨"Lane B"⟩)]) ∧
    lookupA (prepareBoardItems
        [("i1", ⟨"A", 5, "x"⟩), ("i2", ⟨"A", 3, "y"⟩), ("i3", ⟨"Z", 0, "z"⟩)]
        [("A", ⟨"Lane A"⟩), ("B", ⟨"Lane B"⟩)]) "Z" = none ∧
    (∀ itemKey item,
      (itemKey, item) ∈
        ([("i1", ⟨"A", 5, "x"⟩), ("i2", ⟨"A", 3, "y"⟩), ("i3", ⟨"Z", 0, "z"⟩)] :
          AssocList IBoardItem) →
      item.lane = "Z" →
      ∀ e ∈ prepareBoardItems
        [("i1", ⟨"A", 5, "x"⟩), ("i2", ⟨"A", 3, "y"⟩), ("i3", ⟨"Z", 0, "z"⟩)]
        [("A", ⟨"Lane A"⟩), ("B", ⟨"Lane B"⟩)], toPrepared itemKey item ∉ e.2)) :=
  ⟨by decide, prepareBoardItems_malformed _ _ "Z" (by decide)⟩


/-! ### Re-ranking and splice lemmas -/

theorem resetOrderFrom_length (i : Nat) (l : List IPreparedBoardItem) :
    (resetOrderFrom i l).length = l.length := by
  induction l generalizing i with
  | nil => rfl
  | cons it rest ih => simp [resetOrderFrom, ih]

theorem resetOrderFrom_get :
    ∀ (l : List IPreparedBoardItem) (i j : Nat) (h1 : j < l.length)
      (h2 : j < (resetOrderFrom i l).length),
      (resetOrderFrom i l).get ⟨j, h2⟩ = resetOrder (l.get ⟨j, h1⟩) ((i + j : Nat) : Int) := by
  intro l
  induction l with
  | nil => intro i j h1 h2; simp at h1
  | cons it rest ih =>
    intro i j h1 h2
    cases j with
    | zero => simp [resetOrderFrom]
    | succ j =>
      have h1r : j < rest.length := by simpa using h1
      have h2r : j < (resetOrderFrom (i + 1) rest).length := by
        rw [resetOrderFrom_length]; exact h1r
      have hstep : (resetOrderFrom i (it :: rest)).get ⟨j + 1, h2⟩ =
          (resetOrderFrom (i + 1) rest).get ⟨j, h2r⟩ := rfl
      rw [hstep, ih (i + 1) j h1r h2r]
      have hc : ((i + 1 + j : Nat) : Int) = ((i + (j + 1) : Nat) : Int) := by omega
      rw [hc]
      rfl

theorem resetOrderAll_length (l : List IPreparedBoardItem) :
    (resetOrderAll l).length = l.length := resetOrderFrom_length 0 l

theorem resetOrderAll_order (l : List IPreparedBoardItem) (j : Nat)
    (h2 : j < (resetOrderAll l).length) :
    ((resetOrderAll l).get ⟨j, h2⟩).order = (j : Int) := by
  have h1 : j < l.length := by rw [← resetOrderAll_length]; exact h2
  have hg := resetOrderFrom_get l 0 j h1 h2
  show ((resetOrderFrom 0 l).get ⟨j, h2⟩).order = (j : Int)
  rw [hg]
  show ((0 + j : Nat) : Int) = (j : Int)
  omega

theorem resetOrderAll_itemKey (l : List IPreparedBoardItem) (j : Nat)
    (h1 : j < l.length) (h2 : j < (resetOrderAll l).length) :
    ((resetOrderAll l).get ⟨j, h2⟩).itemKey = (l.get ⟨j, h1⟩).itemKey := by
  have hg := resetOrderFrom_get l 0 j h1 h2
  show ((resetOrderFrom 0 l).get ⟨j, h2⟩).itemKey = (l.get ⟨j, h1⟩).itemKey
  rw [hg]
  rfl

theorem resetOrderFrom_countP_itemKey (key : String) :
    ∀ (l : List IPreparedBoardItem) (i : Nat),
      (resetOrderFrom i l).countP (fun it => it.itemKey = key) =
        l.countP (fun it => it.itemKey = key) := by
  intro l
  induction l with
  | nil => intro i; rfl
  | cons it rest ih =>
    intro i
    have h1 : resetOrderFrom i (it :: rest) =
        resetOrder it (i : Int) :: resetOrderFrom (i + 1) rest := rfl
    rw [h1, List.countP_cons, List.countP_cons, ih]
    rfl

theorem resetOrderAll_countP_itemKey (key : String) (l : List IPreparedBoardItem) :
    (resetOrderAll l).countP (fun it => it.itemKey = key) =
      l.countP (fun it => it.itemKey = key) :=
  resetOrderFrom_countP_itemKey key l 0

theorem jsSpliceStart_natCast (len n : Nat) : jsSpliceStart len (n : Int) = min n len := by
  unfold jsSpliceStart
  rw [if_neg (by omega : ¬((n : Int) < 0))]
  simp

theorem spliceRemoveOne_natCast {α : Type} (l : List α) (n : Nat) (h : n < l.length) :
    spliceRemoveOne l (n : Int) = ([l.get ⟨n, h⟩], l.take n ++ l.drop (n + 1)) := by
  show ((l.drop (jsSpliceStart l.length (n : Int))).take 1,
      l.take (jsSpliceStart l.length (n : Int)) ++
        l.drop (jsSpliceStart l.length (n : Int) + 1)) = _
  rw [jsSpliceStart_natCast, Nat.min_eq_left h.le]
  have hd : l.drop n = l.get ⟨n, h⟩ :: l.drop (n + 1) := by
    rw [List.drop_eq_getElem_cons h]
    rfl
  rw [hd]
  rfl

theorem spliceInsert_natCast {α : Type} (l : List α) (n : Nat) (x : α) (h : n ≤ l.length) :
    spliceInsert l (n : Int) x = l.take n ++ x :: l.drop n := by
  unfold spliceInsert
  rw [jsSpliceStart_natCast, Nat.min_eq_left h]

theorem get_append_cons_self {α : Type} :
    ∀ (l1 : List α) (x : α) (l2 : List α),
      ∃ h : l1.length < (l1 ++ x :: l2).length,
        (l1 ++ x :: l2).get ⟨l1.length, h⟩ = x := by
  intro l1
  induction l1 with
  | nil => intro x l2; exact ⟨by simp, rfl⟩
  | cons y rest ih =>
    intro x l2
    obtain ⟨h, hx⟩ := ih x l2
    exact ⟨by simpa using h, hx⟩


/-! ### `onDragEnd`: computation lemmas -/

/-- What `onDragEnd` computes on a commit (defined destination), spelled out:
remove at the source index, re-rank the source lane, insert at the
destination index, re-rank the destination lane. -/
theorem onDragEnd_commit_eq (arrangedLanes : TBoardLanes)
    (arrangedItems : IPreparedBoardItems) (draggableId : String)
    (source dest : DraggableLocation)
    (ls ld : List IPreparedBoardItem) (boardLane : TBoardLane) (bi : IPreparedBoardItem)
    (hsrc : lookupA arrangedItems source.droppableId = some ls)
    (hfind : ls.find? (fun b => b.itemKey = draggableId) = some bi)
    (hlane : lookupA arrangedLanes dest.droppableId = some boardLane)
    (hdst : lookupA arrangedItems dest.droppableId = some ld)
    (hsi : source.index < ls.length) :
    onDragEnd arrangedLanes arrangedItems draggableId source (some dest) =
      some { announcement := .dragEnd bi.title (max 1 (dest.index + 1))
               ld.length boardLane.title
             arrangedItems :=
               updateFirst
                 (updateFirst arrangedItems source.droppableId
                   (fun _ =>
                     resetOrderAll (ls.take source.index ++ ls.drop (source.index + 1))))
                 dest.droppableId
                 (fun l =>
                   resetOrderAll
                     (spliceInsert l (dest.index : Int) (ls.get ⟨source.index, hsi⟩)))
             itemsSet := true
             placeholderCleared := true } := by
  simp only [onDragEnd, hsrc, hfind, hlane, hdst,
    spliceRemoveOne_natCast ls source.index hsi]

/-- Claim C3: on a drop with no destination (cancelled drag), `onDragEnd`
leaves the arranged items state entirely unchanged, calls neither
`setArrangedItems` nor `setPlaceholderPosition`, and produces only the
drag-cancel accessibility announcement. -/
theorem onDragEnd_cancel (arrangedLanes : TBoardLanes)
    (arrangedItems : IPreparedBoardItems) (draggableId : String)
    (source : DraggableLocation) (ls : List IPreparedBoardItem)
    (bi : IPreparedBoardItem)
    (hsrc : lookupA arrangedItems source.droppableId = some ls)
    (hfind : ls.find? (fun b => b.itemKey = draggableId) = some bi) :
    onDragEnd arrangedLanes arrangedItems draggableId source none =
      some { announcement := .dragCancel bi.title
             arrangedItems := arrangedItems
             itemsSet := false
             placeholderCleared := false } := by
  simp only [onDragEnd, hsrc, hfind]

/-- Witness for C3: a cancelled drag on a concrete two-lane board. -/
theorem onDragEnd_cancel_witness :
    lookupA ([("A", [⟨"i1", "A", 0, "x"⟩]), ("B", [])] : IPreparedBoardItems) "A" =
      some [⟨"i1", "A", 0, "x"⟩] ∧
    onDragEnd [("A", ⟨"Lane A"⟩), ("B", ⟨"Lane B"⟩)]
        [("A", [⟨"i1", "A", 0, "x"⟩]), ("B", [])] "i1" ⟨"A", 0⟩ none =
      some { announcement := .dragCancel "x"
             arrangedItems := [("A", [⟨"i1", "A", 0, "x"⟩]), ("B", [])]
             itemsSet := false
             placeholderCleared := false } :=
  ⟨rfl, onDragEnd_cancel _ _ "i1" ⟨"A", 0⟩ [⟨"i1", "A", 0, "x"⟩] ⟨"i1", "A", 0, "x"⟩
    rfl (by decide)⟩


/-! ### Claims C2 and C9: re-ranking invariant and frame -/

/-- Claim C2: after any drop commit (same-lane or cross-lane), in both the
source and the destination lane of the resulting items state, every item's
`order` equals its index in its lane sequence (contiguous ranks 0,1,2,...). -/
theorem onDragEnd_order_eq_index (arrangedLanes : TBoardLanes)
    (arrangedItems : IPreparedBoardItems) (draggableId : String)
    (source dest : DraggableLocation)
    (ls ld : List IPreparedBoardItem) (boardLane : TBoardLane) (bi : IPreparedBoardItem)
    (hsrc : lookupA arrangedItems source.droppableId = some ls)
    (hfind : ls.find? (fun b => b.itemKey = draggableId) = some bi)
    (hlane : lookupA arrangedLanes dest.droppableId = some boardLane)
    (hdst : lookupA arrangedItems dest.droppableId = some ld)
    (hsi : source.index < ls.length) :
    ∃ a items2,
      onDragEnd arrangedLanes arrangedItems draggableId source (some dest) =
        some ⟨a, items2, true, true⟩ ∧
      ∀ k, (k = source.droppableId ∨ k = dest.droppableId) →
        ∀ l, lookupA items2 k = some l →
          ∀ j (hj : j < l.length), (l.get ⟨j, hj⟩).order = (j : Int) := by
  refine ⟨_, _,
    onDragEnd_commit_eq arrangedLanes arrangedItems draggableId source dest
      ls ld boardLane bi hsrc hfind hlane hdst hsi, ?_⟩
  intro k hk l hl j hj
  by_cases hkdst : k = dest.droppableId
  · subst hkdst
    rw [lookupA_updateFirst_self] at hl
    cases hv : lookupA (updateFirst arrangedItems source.droppableId
        (fun _ => resetOrderAll (ls.take source.index ++ ls.drop (source.index + 1))))
        dest.droppableId with
    | none => rw [hv] at hl; simp at hl
    | some v =>
      rw [hv] at hl
      simp at hl
      subst hl
      exact resetOrderAll_order _ j hj
  · have hksrc : k = source.droppableId := hk.resolve_right hkdst
    subst hksrc
    rw [lookupA_updateFirst_ne _ _ _ _ hkdst, lookupA_updateFirst_self, hsrc] at hl
    simp at hl
    subst hl
    exact resetOrderAll_order _ j hj

/-- Witness for C2: a same-lane move on a concrete board whose input
`order` values are stale. -/
theorem onDragEnd_order_eq_index_witness :
    lookupA ([("A", [⟨"i1", "A", 7, "x"⟩, ⟨"i2", "A", 9, "y"⟩])] : IPreparedBoardItems)
      "A" = some [⟨"i1", "A", 7, "x"⟩, ⟨"i2", "A", 9, "y"⟩] ∧
    (∃ a items2,
      onDragEnd [("A", ⟨"Lane A"⟩)]
          [("A", [⟨"i1", "A", 7, "x"⟩, ⟨"i2", "A", 9, "y"⟩])]
          "i1" ⟨"A", 0⟩ (some ⟨"A", 1⟩) =
        some ⟨a, items2, true, true⟩ ∧
      ∀ k, (k = "A" ∨ k = "A") →
        ∀ l, lookupA items2 k = some l →
          ∀ j (hj : j < l.length), (l.get ⟨j, hj⟩).order = (j : Int)) :=
  ⟨rfl, onDragEnd_order_eq_index [("A", ⟨"Lane A"⟩)]
    [("A", [⟨"i1", "A", 7, "x"⟩, ⟨"i2", "A", 9, "y"⟩])] "i1" ⟨"A", 0⟩ ⟨"A", 1⟩
    [⟨"i1", "A", 7, "x"⟩, ⟨"i2", "A", 9, "y"⟩] [⟨"i1", "A", 7, "x"⟩, ⟨"i2", "A", 9, "y"⟩]
    ⟨"Lane A"⟩ ⟨"i1", "A", 7, "x"⟩ rfl (by decide) rfl rfl (by decide)⟩

/-- Claim C9: a drop commit leaves every lane other than the source and the
destination lane untouched: its sequence in the resulting items state is the
very list it was bound to before (same items, same order, same `order`
fields). -/
theorem onDragEnd_frame (arrangedLanes : TBoardLanes)
    (arrangedItems : IPreparedBoardItems) (draggableId : String)
    (source dest : DraggableLocation)
    (ls ld : List IPreparedBoardItem) (boardLane : TBoardLane) (bi : IPreparedBoardItem)
    (hsrc : lookupA arrangedItems source.droppableId = some ls)
    (hfind : ls.find? (fun b => b.itemKey = draggableId) = some bi)
    (hlane : lookupA arrangedLanes dest.droppableId = some boardLane)
    (hdst : lookupA arrangedItems dest.droppableId = some ld)
    (hsi : source.index < ls.length) :
    ∃ a items2,
      onDragEnd arrangedLanes arrangedItems draggableId source (some dest) =
        some ⟨a, items2, true, true⟩ ∧
      ∀ k, k ≠ source.droppableId → k ≠ dest.droppableId →
        lookupA items2 k = lookupA arrangedItems k := by
  refine ⟨_, _,
    onDragEnd_commit_eq arrangedLanes arrangedItems draggableId source dest
      ls ld boardLane bi hsrc hfind hlane hdst hsi, ?_⟩
  intro k hks hkd
  rw [lookupA_updateFirst_ne _ _ _ _ hkd, lookupA_updateFirst_ne _ _ _ _ hks]

/-- Witness for C9: a cross-lane move on a three-lane board; the third lane
keeps its binding. -/
theorem onDragEnd_frame_witness :
    lookupA ([("A", [⟨"i1", "A", 0, "x"⟩]), ("B", []), ("C", [⟨"i3", "C", 0, "z"⟩])] :
        IPreparedBoardItems) "A" = some [⟨"i1", "A", 0, "x"⟩] ∧
    (∃ a items2,
      onDragEnd [("A", ⟨"Lane A"⟩), ("B", ⟨"Lane B"⟩), ("C", ⟨"Lane C"⟩)]
          [("A", [⟨"i1", "A", 0, "x"⟩]), ("B", []), ("C", [⟨"i3", "C", 0, "z"⟩])]
          "i1" ⟨"A", 0⟩ (some ⟨"B", 0⟩) =
        some ⟨a, items2, true, true⟩ ∧
      ∀ k, k ≠ "A" → k ≠ "B" →
        lookupA items2 k =
          lookupA ([("A", [⟨"i1", "A", 0, "x"⟩]), ("B", []), ("C", [⟨"i3", "C", 0, "z"⟩])] :
            IPreparedBoardItems) k) :=
  ⟨rfl, onDragEnd_frame [("A", ⟨"Lane A"⟩), ("B", ⟨"Lane B"⟩), ("C", ⟨"Lane C"⟩)]
    [("A", [⟨"i1", "A", 0, "x"⟩]), ("B", []), ("C", [⟨"i3", "C", 0, "z"⟩])]
    "i1" ⟨"A", 0⟩ ⟨"B", 0⟩ [⟨"i1", "A", 0, "x"⟩] [] ⟨"Lane B"⟩ ⟨"i1", "A", 0, "x"⟩
    rfl (by decide) rfl rfl (by decide)⟩


/-! ### Item-key counting lemmas for the cross-lane move claim -/

theorem countItemKey_cons (k1 : String) (w : List IPreparedBoardItem)
    (rest : IPreparedBoardItems) (key : String) :
    countItemKey ((k1, w) :: rest) key =
      w.countP (fun it => it.itemKey = key) + countItemKey rest key := by
  simp [countItemKey]

theorem countItemKey_updateFirst (m : IPreparedBoardItems) (k : String)
    (f : List IPreparedBoardItem → List IPreparedBoardItem)
    (v : List IPreparedBoardItem) (key : String)
    (hv : lookupA m k = some v) :
    countItemKey (updateFirst m k f) key + v.countP (fun it => it.itemKey = key) =
      countItemKey m key + (f v).countP (fun it => it.itemKey = key) := by
  induction m with
  | nil => simp [lookupA] at hv
  | cons e rest ih =>
    obtain ⟨k1, w⟩ := e
    by_cases h : k1 = k
    · have hv2 : w = v := by simpa [lookupA, h] using hv
      subst hv2
      have hu : updateFirst ((k1, w) :: rest) k f = (k1, f w) :: rest := by
        simp [updateFirst, h]
      rw [hu, countItemKey_cons, countItemKey_cons]
      omega
    · have hv2 : lookupA rest k = some v := by simpa [lookupA, h] using hv
      have hu : updateFirst ((k1, w) :: rest) k f = (k1, w) :: updateFirst rest k f := by
        simp [updateFirst, h]
      rw [hu, countItemKey_cons, countItemKey_cons]
      have := ih hv2
      omega

theorem countP_le_countItemKey (m : IPreparedBoardItems) (k : String)
    (v : List IPreparedBoardItem) (key : String)
    (hv : lookupA m k = some v) :
    v.countP (fun it => it.itemKey = key) ≤ countItemKey m key := by
  induction m with
  | nil => simp [lookupA] at hv
  | cons e rest ih =>
    obtain ⟨k1, w⟩ := e
    rw [countItemKey_cons]
    by_cases h : k1 = k
    · have hv2 : w = v := by simpa [lookupA, h] using hv
      subst hv2
      exact Nat.le_add_right _ _
    · have hv2 : lookupA rest k = some v := by simpa [lookupA, h] using hv
      have := ih hv2
      omega

theorem countP_remove_at (ls : List IPreparedBoardItem) (n : Nat) (h : n < ls.length)
    (key : String) (hkey : (ls.get ⟨n, h⟩).itemKey = key) :
    ls.countP (fun it => it.itemKey = key) =
      (ls.take n ++ ls.drop (n + 1)).countP (fun it => it.itemKey = key) + 1 := by
  have hsplit : ls = ls.take n ++ ls.drop n := (List.take_append_drop n ls).symm
  have hd : ls.drop n = ls.get ⟨n, h⟩ :: ls.drop (n + 1) := by
    rw [List.drop_eq_getElem_cons h]
    rfl
  conv_lhs => rw [hsplit, hd]
  rw [List.countP_append, List.countP_append, List.countP_cons,
    if_pos (decide_eq_true hkey)]
  omega

theorem countP_insert_at (ld : List IPreparedBoardItem) (n : Nat)
    (x : IPreparedBoardItem) :
    (ld.take n ++ x :: ld.drop n).countP (fun it => it.itemKey = x.itemKey) =
      ld.countP (fun it => it.itemKey = x.itemKey) + 1 := by
  conv_rhs => rw [show ld = ld.take n ++ ld.drop n from (List.take_append_drop n ld).symm]
  rw [List.countP_append, List.countP_append, List.countP_cons]
  simp
  omega


/-! ### Claim C1: cross-lane moves -/

theorem get_insert_at {α : Type} :
    ∀ (n : Nat) (l : List α) (x : α), n ≤ l.length →
      ∃ hb : n < (l.take n ++ x :: l.drop n).length,
        (l.take n ++ x :: l.drop n).get ⟨n, hb⟩ = x := by
  intro n
  induction n with
  | zero => intro l x h; exact ⟨by simp, rfl⟩
  | succ n ih =>
    intro l x h
    cases l with
    | nil => simp at h
    | cons y l2 =>
      have h2 : n ≤ l2.length := by simpa using h
      obtain ⟨hb, hg⟩ := ih l2 x h2
      exact ⟨by simpa using Nat.succ_lt_succ hb, hg⟩

/-- Claim C1: every drop with a defined destination removes the item at the
source index from the source lane's sequence, re-ranks that sequence,
inserts the removed item at the destination index of the destination lane's
sequence (the destination lane being the source lane itself on a same-lane
drop), re-ranks it, and hands exactly this items state to
`setArrangedItems` (the `cloneDeep` is value-equal to the mutated
collection).  Consequently, on a cross-lane move of an item whose key occurs
exactly once on the board, the moved item's key occurs exactly once in the
result, at the destination index of the destination lane, and occurs nowhere
in the source lane. -/
theorem onDragEnd_commit_spec (arrangedLanes : TBoardLanes)
    (arrangedItems : IPreparedBoardItems) (draggableId : String)
    (source dest : DraggableLocation)
    (ls ld : List IPreparedBoardItem) (boardLane : TBoardLane) (bi : IPreparedBoardItem)
    (hsrc : lookupA arrangedItems source.droppableId = some ls)
    (hfind : ls.find? (fun b => b.itemKey = draggableId) = some bi)
    (hlane : lookupA arrangedLanes dest.droppableId = some boardLane)
    (hdst : lookupA arrangedItems dest.droppableId = some ld)
    (hsi : source.index < ls.length)
    (hdi : dest.index ≤ ld.length)
    (huniq : countItemKey arrangedItems (ls.get ⟨source.index, hsi⟩).itemKey = 1) :
    ∃ a items2,
      onDragEnd arrangedLanes arrangedItems draggableId source (some dest) =
        some ⟨a, items2, true, true⟩ ∧
      items2 =
        updateFirst
          (updateFirst arrangedItems source.droppableId
            (fun _ => resetOrderAll (ls.take source.index ++ ls.drop (source.index + 1))))
          dest.droppableId
          (fun l => resetOrderAll
            (spliceInsert l (dest.index : Int) (ls.get ⟨source.index, hsi⟩))) ∧
      (source.droppableId ≠ dest.droppableId →
        lookupA items2 source.droppableId =
          some (resetOrderAll (ls.take source.index ++ ls.drop (source.index + 1))) ∧
        lookupA items2 dest.droppableId =
          some (resetOrderAll
            (ld.take dest.index ++ ls.get ⟨source.index, hsi⟩ :: ld.drop dest.index)) ∧
        (∀ it ∈ resetOrderAll (ls.take source.index ++ ls.drop (source.index + 1)),
          it.itemKey ≠ (ls.get ⟨source.index, hsi⟩).itemKey) ∧
        (∃ hb : dest.index <
            (resetOrderAll
              (ld.take dest.index ++ ls.get ⟨source.index, hsi⟩ :: ld.drop dest.index)).length,
          ((resetOrderAll
              (ld.take dest.index ++ ls.get ⟨source.index, hsi⟩ :: ld.drop dest.index)).get
            ⟨dest.index, hb⟩).itemKey = (ls.get ⟨source.index, hsi⟩).itemKey) ∧
        countItemKey items2 (ls.get ⟨source.index, hsi⟩).itemKey = 1) := by
  refine ⟨_, _,
    onDragEnd_commit_eq arrangedLanes arrangedItems draggableId source dest
      ls ld boardLane bi hsrc hfind hlane hdst hsi, rfl, ?_⟩
  intro hne
  refine ⟨?_, ?_, ?_, ?_, ?_⟩
  · rw [lookupA_updateFirst_ne _ _ _ _ hne, lookupA_updateFirst_self, hsrc]
    rfl
  · rw [lookupA_updateFirst_self, lookupA_updateFirst_ne _ _ _ _ (Ne.symm hne), hdst]
    show some (resetOrderAll
      (spliceInsert ld (dest.index : Int) (ls.get ⟨source.index, hsi⟩))) = _
    rw [spliceInsert_natCast ld dest.index _ hdi]
  · intro it hit
    have hc1 : ls.countP (fun x => x.itemKey = (ls.get ⟨source.index, hsi⟩).itemKey) =
        (ls.take source.index ++ ls.drop (source.index + 1)).countP
          (fun x => x.itemKey = (ls.get ⟨source.index, hsi⟩).itemKey) + 1 :=
      countP_remove_at ls source.index hsi _ rfl
    have hle : ls.countP (fun x => x.itemKey = (ls.get ⟨source.index, hsi⟩).itemKey) ≤
        countItemKey arrangedItems (ls.get ⟨source.index, hsi⟩).itemKey :=
      countP_le_countItemKey arrangedItems source.droppableId ls _ hsrc
    have h0 : (ls.take source.index ++ ls.drop (source.index + 1)).countP
        (fun x => x.itemKey = (ls.get ⟨source.index, hsi⟩).itemKey) = 0 := by omega
    have h0r : (resetOrderAll (ls.take source.index ++ ls.drop (source.index + 1))).countP
        (fun x => x.itemKey = (ls.get ⟨source.index, hsi⟩).itemKey) = 0 := by
      rw [resetOrderAll_countP_itemKey]
      exact h0
    have hnone := List.countP_eq_zero.mp h0r it hit
    simpa using hnone
  · obtain ⟨hb, hg⟩ := get_insert_at dest.index ld (ls.get ⟨source.index, hsi⟩) hdi
    have hb2 : dest.index < (resetOrderAll
        (ld.take dest.index ++ ls.get ⟨source.index, hsi⟩ :: ld.drop dest.index)).length := by
      rw [resetOrderAll_length]
      exact hb
    refine ⟨hb2, ?_⟩
    rw [resetOrderAll_itemKey _ dest.index hb hb2, hg]
  · have e1 := countItemKey_updateFirst arrangedItems source.droppableId
      (fun _ => resetOrderAll (ls.take source.index ++ ls.drop (source.index + 1)))
      ls (ls.get ⟨source.index, hsi⟩).itemKey hsrc
    have hv2 : lookupA (updateFirst arrangedItems source.droppableId
        (fun _ => resetOrderAll (ls.take source.index ++ ls.drop (source.index + 1))))
        dest.droppableId = some ld := by
      rw [lookupA_updateFirst_ne _ _ _ _ (Ne.symm hne)]
      exact hdst
    have e2 := countItemKey_updateFirst
      (updateFirst arrangedItems source.droppableId
        (fun _ => resetOrderAll (ls.take source.index ++ ls.drop (source.index + 1))))
      dest.droppableId
      (fun l => resetOrderAll (spliceInsert l (dest.index : Int) (ls.get ⟨source.index, hsi⟩)))
      ld (ls.get ⟨source.index, hsi⟩).itemKey hv2
    have hc1 : ls.countP (fun x => x.itemKey = (ls.get ⟨source.index, hsi⟩).itemKey) =
        (ls.take source.index ++ ls.drop (source.index + 1)).countP
          (fun x => x.itemKey = (ls.get ⟨source.index, hsi⟩).itemKey) + 1 :=
      countP_remove_at ls source.index hsi _ rfl
    have hs0 : (resetOrderAll (ls.take source.index ++ ls.drop (source.index + 1))).countP
        (fun x => x.itemKey = (ls.get ⟨source.index, hsi⟩).itemKey) =
        (ls.take source.index ++ ls.drop (source.index + 1)).countP
          (fun x => x.itemKey = (ls.get ⟨source.index, hsi⟩).itemKey) :=
      resetOrderAll_countP_itemKey _ _
    have hd1 : (resetOrderAll (spliceInsert ld (dest.index : Int)
        (ls.get ⟨source.index, hsi⟩))).countP
        (fun x => x.itemKey = (ls.get ⟨source.index, hsi⟩).itemKey) =
        ld.countP (fun x => x.itemKey = (ls.get ⟨source.index, hsi⟩).itemKey) + 1 := by
      rw [spliceInsert_natCast ld dest.index _ hdi, resetOrderAll_countP_itemKey,
        countP_insert_at]
    rw [hs0] at e1
    rw [hd1] at e2
    omega

/-- Witness for C1: moving the single item of lane `A` to position 1 of
lane `B`, which holds one item. -/
theorem onDragEnd_commit_spec_witness :
    countItemKey [("A", [⟨"i1", "A", 0, "x"⟩]), ("B", [⟨"j1", "B", 0, "y"⟩])] "i1" = 1 ∧
    (∃ a items2,
      onDragEnd [("A", ⟨"Lane A"⟩), ("B", ⟨"Lane B"⟩)]
          [("A", [⟨"i1", "A", 0, "x"⟩]), ("B", [⟨"j1", "B", 0, "y"⟩])]
          "i1" ⟨"A", 0⟩ (some ⟨"B", 1⟩) =
        some ⟨a, items2, true, true⟩ ∧
      items2 = [("A", []), ("B", [⟨"j1", "B", 0, "y"⟩, ⟨"i1", "A", 1, "x"⟩])] ∧
      (("A" : String) ≠ "B" →
        lookupA items2 "A" = some (resetOrderAll []) ∧
        lookupA items2 "B" =
          some (resetOrderAll [⟨"j1", "B", 0, "y"⟩, ⟨"i1", "A", 0, "x"⟩]) ∧
        (∀ it ∈ resetOrderAll ([] : List IPreparedBoardItem), it.itemKey ≠ "i1") ∧
        (∃ hb : 1 < (resetOrderAll
            ([⟨"j1", "B", 0, "y"⟩, ⟨"i1", "A", 0, "x"⟩] : List IPreparedBoardItem)).length,
          ((resetOrderAll
            ([⟨"j1", "B", 0, "y"⟩, ⟨"i1", "A", 0, "x"⟩] : List IPreparedBoardItem)).get
              ⟨1, hb⟩).itemKey = "i1") ∧
        countItemKey items2 "i1" = 1)) :=
  ⟨by decide, onDragEnd_commit_spec [("A", ⟨"Lane A"⟩), ("B", ⟨"Lane B"⟩)]
    [("A", [⟨"i1", "A", 0, "x"⟩]), ("B", [⟨"j1", "B", 0, "y"⟩])]
    "i1" ⟨"A", 0⟩ ⟨"B", 1⟩ [⟨"i1", "A", 0, "x"⟩] [⟨"j1", "B", 0, "y"⟩]
    ⟨"Lane B"⟩ ⟨"i1", "A", 0, "x"⟩
    rfl (by decide) rfl rfl (by decide) (by decide) (by decide)⟩



/-! ### `moveLane`: index and splice computations -/

theorem findIdx?_append_first (laneKey : String) :
    ∀ (pre post : List String) (i : Nat), laneKey ∉ pre →
      List.findIdx? (fun y => y = laneKey) (pre ++ laneKey :: post) i =
        some (i + pre.length) := by
  intro pre
  induction pre with
  | nil =>
    intro post i _
    rw [List.nil_append, List.findIdx?_cons, if_pos (by simp)]
    simp
  | cons x rest ih =>
    intro post i h
    have hx : ¬((fun y => decide (y = laneKey)) x = true) := by
      simp only [decide_eq_true_eq]
      intro he
      exact h (he ▸ List.mem_cons_self x rest)
    rw [List.cons_append, List.findIdx?_cons, if_neg hx,
      ih post (i + 1) (fun hm => h (List.mem_cons_of_mem x hm))]
    have : i + 1 + rest.length = i + (x :: rest).length := by simp; omega
    rw [this]

theorem jsIndexOf_first (laneKey : String) (pre post : List String)
    (hnp : laneKey ∉ pre) :
    jsIndexOf (pre ++ laneKey :: post) laneKey = (pre.length : Int) := by
  unfold jsIndexOf
  rw [findIdx?_append_first laneKey pre post 0 hnp]
  simp

theorem take_append_cons_succ {α : Type} :
    ∀ (pre : List α) (q : α) (rest : List α),
      (pre ++ q :: rest).take (pre.length + 1) = pre ++ [q] := by
  intro pre
  induction pre with
  | nil => intro q rest; rfl
  | cons y ys ih => intro q rest; simp [List.take_cons, ih]

theorem drop_append_cons_succ {α : Type} :
    ∀ (pre : List α) (q : α) (rest : List α),
      (pre ++ q :: rest).drop (pre.length + 1) = rest := by
  intro pre
  induction pre with
  | nil => intro q rest; rfl
  | cons y ys ih => intro q rest; simpa using ih q rest

theorem spliceRemoveOne_append_cons {α : Type} (pre : List α) (x : α) (post : List α) :
    spliceRemoveOne (pre ++ x :: post) ((pre.length : Nat) : Int) = ([x], pre ++ post) := by
  have h : pre.length < (pre ++ x :: post).length := by simp
  rw [spliceRemoveOne_natCast _ _ h]
  obtain ⟨hb, hg⟩ := get_append_cons_self pre x post
  have h1 : [(pre ++ x :: post).get ⟨pre.length, h⟩] = [x] :=
    congrArg (fun y => [y]) hg
  have h2 : (pre ++ x :: post).take pre.length ++ (pre ++ x :: post).drop (pre.length + 1) =
      pre ++ post := by
    rw [List.take_left, drop_append_cons_succ]
  rw [h1, h2]

theorem moveLane_eq (lanes : TBoardLanes) (laneKey : String) (delta : Int)
    (pre post : List String) (hk : keys lanes = pre ++ laneKey :: post)
    (hnp : laneKey ∉ pre) :
    moveLane lanes laneKey delta =
      some (rebuildLanes lanes
        (spliceInsert (pre ++ post) ((pre.length : Int) + delta) laneKey)) := by
  have hidx : jsIndexOf (keys lanes) laneKey = (pre.length : Int) := by
    rw [hk]
    exact jsIndexOf_first laneKey pre post hnp
  have hrem : spliceRemoveOne (keys lanes) ((pre.length : Nat) : Int) =
      ([laneKey], pre ++ post) := by
    rw [hk]
    exact spliceRemoveOne_append_cons pre laneKey post
  simp only [moveLane, hidx, hrem]

theorem spliceInsert_at_length {α : Type} (l : List α) (x : α) (d : Int)
    (h : (l.length : Int) ≤ d) :
    spliceInsert l d x = l ++ [x] := by
  show l.take (jsSpliceStart l.length d) ++ x :: l.drop (jsSpliceStart l.length d) = _
  have hs : jsSpliceStart l.length d = l.length := by
    unfold jsSpliceStart
    rw [if_neg (by omega)]
    omega
  rw [hs, List.take_length, List.drop_length]

theorem spliceInsert_succ {α : Type} (pre : List α) (q : α) (rest : List α) (x : α) :
    spliceInsert (pre ++ q :: rest) ((pre.length : Int) + 1) x =
      pre ++ q :: x :: rest := by
  have hcast : ((pre.length : Int) + 1) = (((pre.length + 1 : Nat)) : Int) := by
    push_cast
    ring
  have hle : pre.length + 1 ≤ (pre ++ q :: rest).length := by
    simp
  rw [hcast, spliceInsert_natCast _ _ _ hle, take_append_cons_succ,
    drop_append_cons_succ]
  simp

theorem spliceInsert_pred {α : Type} (pre2 : List α) (p : α) (rest : List α) (x : α) :
    spliceInsert (pre2 ++ p :: rest) ((((pre2 ++ [p]).length : Nat) : Int) + -1) x =
      pre2 ++ x :: p :: rest := by
  have hcast : ((((pre2 ++ [p]).length : Nat) : Int) + -1) = ((pre2.length : Nat) : Int) := by
    simp
  have hle : pre2.length ≤ (pre2 ++ p :: rest).length := by
    simp
  rw [hcast, spliceInsert_natCast _ _ _ hle, List.take_left, List.drop_left]

theorem spliceInsert_neg_one {α : Type} (l : List α) (x : α) :
    spliceInsert l (-1) x =
      l.take (l.length - 1) ++ x :: l.drop (l.length - 1) := by
  show l.take (jsSpliceStart l.length (-1)) ++ x :: l.drop (jsSpliceStart l.length (-1)) = _
  have hs : jsSpliceStart l.length (-1) = l.length - 1 := by
    unfold jsSpliceStart
    rw [if_pos (by omega)]
    omega
  rw [hs]


/-! ### `moveLane`: the rebuild of the lane mapping -/

theorem rebuildFold (lanes : TBoardLanes) :
    ∀ (ks : List String) (init : TBoardLanes),
      ks.foldl
        (fun acc currentLaneKey =>
          match lookupA lanes currentLaneKey with
          | some lane => acc ++ [(currentLaneKey, lane)]
          | none => acc)
        init =
        init ++ ks.filterMap (fun k => (lookupA lanes k).map (fun v => (k, v))) := by
  intro ks
  induction ks with
  | nil => intro init; simp
  | cons x rest ih =>
    intro init
    cases hx : lookupA lanes x with
    | some v =>
      simp only [List.foldl_cons, hx, List.filterMap_cons, Option.map_some]
      rw [ih]
      simp
    | none =>
      simp only [List.foldl_cons, hx, List.filterMap_cons, Option.map_none]
      rw [ih]
      rfl

theorem rebuildLanes_eq (lanes : TBoardLanes) (ks : List String) :
    rebuildLanes lanes ks =
      ks.filterMap (fun k => (lookupA lanes k).map (fun v => (k, v))) := by
  show ks.foldl
      (fun acc currentLaneKey =>
        match lookupA lanes currentLaneKey with
        | some lane => acc ++ [(currentLaneKey, lane)]
        | none => acc)
      [] = _
  rw [rebuildFold]
  rfl

theorem keys_rebuildLanes (lanes : TBoardLanes) :
    ∀ (ks : List String), (∀ x ∈ ks, x ∈ keys lanes) →
      keys (rebuildLanes lanes ks) = ks := by
  intro ks
  induction ks with
  | nil => intro _; rfl
  | cons x rest ih =>
    intro hall
    have hx := (lookupA_isSome_iff_mem lanes x).mpr (hall x (List.mem_cons_self x rest))
    cases hv : lookupA lanes x with
    | none => rw [hv] at hx; simp at hx
    | some v =>
      have hrest := ih (fun y hy => hall y (List.mem_cons_of_mem x hy))
      rw [rebuildLanes_eq] at hrest ⊢
      rw [List.filterMap_cons, hv]
      show keys ((x, v) ::
        rest.filterMap (fun k => (lookupA lanes k).map (fun w => (k, w)))) = x :: rest
      have hkeys : keys ((x, v) ::
          rest.filterMap (fun k => (lookupA lanes k).map (fun w => (k, w)))) =
          x :: keys (rest.filterMap (fun k => (lookupA lanes k).map (fun w => (k, w)))) :=
        rfl
      rw [hkeys, hrest]

theorem lookupA_rebuildLanes (lanes : TBoardLanes) :
    ∀ (ks : List String) (k : String), (∀ x ∈ ks, x ∈ keys lanes) → k ∈ ks →
      lookupA (rebuildLanes lanes ks) k = lookupA lanes k := by
  intro ks
  induction ks with
  | nil => intro k _ hk; simp at hk
  | cons x rest ih =>
    intro k hall hk
    have hx := (lookupA_isSome_iff_mem lanes x).mpr (hall x (List.mem_cons_self x rest))
    cases hv : lookupA lanes x with
    | none => rw [hv] at hx; simp at hx
    | some v =>
      rw [rebuildLanes_eq, List.filterMap_cons, hv]
      show lookupA ((x, v) ::
        rest.filterMap (fun q => (lookupA lanes q).map (fun w => (q, w)))) k = lookupA lanes k
      by_cases hxk : x = k
      · subst hxk
        simp [lookupA, hv]
      · have hk2 : k ∈ rest := by
          rcases List.mem_cons.mp hk with h | h
          · exact absurd h.symm hxk
          · exact h
        have hrec := ih k (fun y hy => hall y (List.mem_cons_of_mem x hy)) hk2
        rw [rebuildLanes_eq] at hrec
        simp only [lookupA, if_neg hxk]
        exact hrec

theorem spliceInsert_perm {α : Type} (l : List α) (i : Int) (x : α) :
    List.Perm (spliceInsert l i x) (x :: l) := by
  show List.Perm
    (l.take (jsSpliceStart l.length i) ++ x :: l.drop (jsSpliceStart l.length i)) (x :: l)
  have h2 := @List.perm_middle _ x (l.take (jsSpliceStart l.length i))
    (l.drop (jsSpliceStart l.length i))
  rw [List.take_append_drop] at h2
  exact h2

theorem exists_first_decomp {a : String} {l : List String} (h : a ∈ l) :
    ∃ s t, l = s ++ a :: t ∧ a ∉ s := by
  induction l with
  | nil => simp at h
  | cons x rest ih =>
    by_cases hx : x = a
    · exact ⟨[], rest, by rw [hx]; rfl, by simp⟩
    · have h2 : a ∈ rest := by
        rcases List.mem_cons.mp h with h1 | h1
        · exact absurd h1.symm hx
        · exact h1
      obtain ⟨s, t, hl, hns⟩ := ih h2
      refine ⟨x :: s, t, by rw [List.cons_append, hl], ?_⟩
      intro hc
      rcases List.mem_cons.mp hc with h1 | h1
      · exact hx h1.symm
      · exact hns h1

theorem moveLane_keys_eq (lanes : TBoardLanes) (laneKey : String) (delta : Int)
    (pre post : List String) (hk : keys lanes = pre ++ laneKey :: post)
    (hnp : laneKey ∉ pre) (newKeys : List String)
    (hins : spliceInsert (pre ++ post) ((pre.length : Int) + delta) laneKey = newKeys) :
    ∃ m, moveLane lanes laneKey delta = some m ∧ keys m = newKeys := by
  refine ⟨_, moveLane_eq lanes laneKey delta pre post hk hnp, ?_⟩
  have hperm : List.Perm (spliceInsert (pre ++ post) ((pre.length : Int) + delta) laneKey)
      (keys lanes) := by
    have h1 := spliceInsert_perm (pre ++ post) ((pre.length : Int) + delta) laneKey
    have h2 : List.Perm (laneKey :: (pre ++ post)) (keys lanes) := by
      rw [hk]
      exact (@List.perm_middle _ laneKey pre post).symm
    exact h1.trans h2
  rw [hins] at hperm
  rw [hins]
  exact keys_rebuildLanes lanes newKeys (fun x hx => hperm.mem_iff.mp hx)

/-! ### Claims C10 and C4: lane reordering -/

/-- Claim C10: for every lane key present in the mapping and delta in
{-1, +1}, `moveLane` produces a mapping whose key sequence is a permutation
of the input's (no key lost or duplicated) and which binds every key to the
same lane value as before. -/
theorem moveLane_permutes (lanes : TBoardLanes) (laneKey : String) (delta : Int)
    (hmem : laneKey ∈ keys lanes) (hdelta : delta = -1 ∨ delta = 1) :
    ∃ m, moveLane lanes laneKey delta = some m ∧
      List.Perm (keys m) (keys lanes) ∧
      ∀ k, lookupA m k = lookupA lanes k := by
  obtain ⟨pre, post, hk, hnp⟩ := exists_first_decomp hmem
  refine ⟨_, moveLane_eq lanes laneKey delta pre post hk hnp, ?_, ?_⟩
  all_goals
    have hperm : List.Perm
        (spliceInsert (pre ++ post) ((pre.length : Int) + delta) laneKey)
        (keys lanes) := by
      have h1 := spliceInsert_perm (pre ++ post) ((pre.length : Int) + delta) laneKey
      have h2 : List.Perm (laneKey :: (pre ++ post)) (keys lanes) := by
        rw [hk]
        exact (@List.perm_middle _ laneKey pre post).symm
      exact h1.trans h2
    have hall : ∀ x ∈ spliceInsert (pre ++ post) ((pre.length : Int) + delta) laneKey,
        x ∈ keys lanes := fun x hx => hperm.mem_iff.mp hx
    have hkeys := keys_rebuildLanes lanes _ hall
  · rw [hkeys]
    exact hperm
  · intro k
    by_cases hkmem : k ∈ spliceInsert (pre ++ post) ((pre.length : Int) + delta) laneKey
    · exact lookupA_rebuildLanes lanes _ k hall hkmem
    · have h1 : k ∉ keys (rebuildLanes lanes
          (spliceInsert (pre ++ post) ((pre.length : Int) + delta) laneKey)) := by
        rw [hkeys]
        exact hkmem
      have h2 : k ∉ keys lanes := fun hc => hkmem (hperm.mem_iff.mpr hc)
      rw [lookupA_eq_none_of_not_mem h1, lookupA_eq_none_of_not_mem h2]

/-- Witness for C10: moving the middle lane of a three-lane board further. -/
theorem moveLane_permutes_witness :
    "b" ∈ keys [("a", (⟨"A"⟩ : TBoardLane)), ("b", ⟨"B"⟩), ("c", ⟨"C"⟩)] ∧
    ((1 : Int) = -1 ∨ (1 : Int) = 1) ∧
    (∃ m, moveLane [("a", ⟨"A"⟩), ("b", ⟨"B"⟩), ("c", ⟨"C"⟩)] "b" 1 = some m ∧
      List.Perm (keys m) (keys [("a", (⟨"A"⟩ : TBoardLane)), ("b", ⟨"B"⟩), ("c", ⟨"C"⟩)]) ∧
      ∀ k, lookupA m k =
        lookupA [("a", (⟨"A"⟩ : TBoardLane)), ("b", ⟨"B"⟩), ("c", ⟨"C"⟩)] k) :=
  ⟨by decide, Or.inr rfl,
    moveLane_permutes [("a", ⟨"A"⟩), ("b", ⟨"B"⟩), ("c", ⟨"C"⟩)] "b" 1 (by decide)
      (Or.inr rfl)⟩


/-- Counterexample to claim C4 as stated: on a three-lane board, moving the
FIRST lane nearer (delta = -1) does not leave the key order unchanged — the
JS `splice(-1, ...)` counts from the end, so the first key lands at the
second-to-last position. -/
theorem moveLane_first_nearer_cex :
    moveLane [("a", ⟨"A"⟩), ("b", ⟨"B"⟩), ("c", ⟨"C"⟩)] "a" (-1) =
      some [("b", ⟨"B"⟩), ("a", ⟨"A"⟩), ("c", ⟨"C"⟩)] ∧
    moveLane [("a", ⟨"A"⟩), ("b", ⟨"B"⟩), ("c", ⟨"C"⟩)] "a" (-1) ≠
      some [("a", ⟨"A"⟩), ("b", ⟨"B"⟩), ("c", ⟨"C"⟩)] := by
  constructor
  · rfl
  · decide

/-- Claim C4, amended: for a present lane key (first occurrence decomposed
as `pre ++ laneKey :: post`): moving further (delta = +1) swaps the key with
its right neighbour, and leaves the order unchanged for the last lane;
moving nearer (delta = -1) swaps the key with its left neighbour when one
exists, but for the FIRST lane it relocates the key to index `length - 2`
(second-to-last position) — which coincides with the unchanged order only
when there are at most two lanes. -/
theorem moveLane_one_slot (lanes : TBoardLanes) (laneKey : String)
    (pre post : List String) (hk : keys lanes = pre ++ laneKey :: post)
    (hnp : laneKey ∉ pre) :
    (post = [] → ∃ m, moveLane lanes laneKey 1 = some m ∧ keys m = keys lanes) ∧
    (∀ q post2, post = q :: post2 →
      ∃ m, moveLane lanes laneKey 1 = some m ∧ keys m = pre ++ q :: laneKey :: post2) ∧
    (∀ pre2 p, pre = pre2 ++ [p] →
      ∃ m, moveLane lanes laneKey (-1) = some m ∧
        keys m = pre2 ++ laneKey :: p :: post) ∧
    (pre = [] →
      ∃ m, moveLane lanes laneKey (-1) = some m ∧
        keys m = post.take (post.length - 1) ++ laneKey :: post.drop (post.length - 1)) := by
  refine ⟨?_, ?_, ?_, ?_⟩
  · intro hpost
    subst hpost
    have hins : spliceInsert (pre ++ []) ((pre.length : Int) + 1) laneKey =
        pre ++ [laneKey] := by
      rw [List.append_nil]
      exact spliceInsert_at_length pre laneKey ((pre.length : Int) + 1) (by omega)
    obtain ⟨m, hm, hkeys⟩ := moveLane_keys_eq lanes laneKey 1 pre [] hk hnp _ hins
    exact ⟨m, hm, by rw [hkeys, hk]⟩
  · intro q post2 hpost
    subst hpost
    exact moveLane_keys_eq lanes laneKey 1 pre (q :: post2) hk hnp _
      (spliceInsert_succ pre q post2 laneKey)
  · intro pre2 p hpre
    subst hpre
    have hins : spliceInsert ((pre2 ++ [p]) ++ post) (((pre2 ++ [p]).length : Int) + (-1))
        laneKey = pre2 ++ laneKey :: p :: post := by
      rw [show (pre2 ++ [p]) ++ post = pre2 ++ p :: post by simp]
      exact spliceInsert_pred pre2 p post laneKey
    exact moveLane_keys_eq lanes laneKey (-1) (pre2 ++ [p]) post hk hnp _ hins
  · intro hpre
    subst hpre
    have hins : spliceInsert (([] : List String) ++ post)
        (((([] : List String).length : Nat) : Int) + (-1)) laneKey =
        post.take (post.length - 1) ++ laneKey :: post.drop (post.length - 1) := by
      rw [show (([] : List String) ++ post) = post from rfl,
        show (((([] : List String).length : Nat) : Int) + (-1)) = (-1 : Int) by simp]
      exact spliceInsert_neg_one post laneKey
    exact moveLane_keys_eq lanes laneKey (-1) [] post hk hnp _ hins

/-- Witness for the amended C4 on a three-lane board, middle lane. -/
theorem moveLane_one_slot_witness :
    keys [("a", (⟨"A"⟩ : TBoardLane)), ("b", ⟨"B"⟩), ("c", ⟨"C"⟩)] =
      ["a"] ++ "b" :: ["c"] ∧ "b" ∉ (["a"] : List String) ∧
    ((["c"] : List String) = [] →
      ∃ m, moveLane [("a", ⟨"A"⟩), ("b", ⟨"B"⟩), ("c", ⟨"C"⟩)] "b" 1 = some m ∧
        keys m = keys [("a", (⟨"A"⟩ : TBoardLane)), ("b", ⟨"B"⟩), ("c", ⟨"C"⟩)]) ∧
    (∀ q post2, (["c"] : List String) = q :: post2 →
      ∃ m, moveLane [("a", ⟨"A"⟩), ("b", ⟨"B"⟩), ("c", ⟨"C"⟩)] "b" 1 = some m ∧
        keys m = ["a"] ++ q :: "b" :: post2) ∧
    (∀ pre2 p, (["a"] : List String) = pre2 ++ [p] →
      ∃ m, moveLane [("a", ⟨"A"⟩), ("b", ⟨"B"⟩), ("c", ⟨"C"⟩)] "b" (-1) = some m ∧
        keys m = pre2 ++ "b" :: p :: ["c"]) ∧
    ((["a"] : List String) = [] →
      ∃ m, moveLane [("a", ⟨"A"⟩), ("b", ⟨"B"⟩), ("c", ⟨"C"⟩)] "b" (-1) = some m ∧
        keys m = (["c"] : List String).take ((["c"] : List String).length - 1) ++
          "b" :: (["c"] : List String).drop ((["c"] : List String).length - 1)) := by
  refine ⟨by decide, by decide, ?_, ?_, ?_, ?_⟩
  all_goals
    have h := moveLane_one_slot [("a", ⟨"A"⟩), ("b", ⟨"B"⟩), ("c", ⟨"C"⟩)] "b"
      ["a"] ["c"] (by decide) (by decide)
  · exact h.1
  · exact h.2.1
  · exact h.2.2.1
  · exact h.2.2.2


/-! ### Claim C5: placeholder geometry -/

theorem foldl_clientY :
    ∀ (l : List ChildElement) (a : Nat),
      l.foldl (fun acc c => acc + c.clientHeight + 8) a =
        a + (l.map (fun c => c.clientHeight)).sum + 8 * l.length := by
  intro l
  induction l with
  | nil => intro a; simp
  | cons c rest ih =>
    intro a
    rw [List.foldl_cons, ih (a + c.clientHeight + 8)]
    simp [List.sum_cons]
    ring

/-- Claim C5: for a dragged element with a parent node, the placeholder is
the 4-tuple `[x, y, width, height]` whose width and height are the dragged
element's client width and height and whose `y` is the sum of the rendered
heights of the preceding siblings (the first `endIndex` draggable children
other than the dragged one) plus a spacing of 8 per sibling plus a constant
offset of 2; the result is `null` when the dragged element is missing or has
no parent node. -/
theorem getPlaceholderPosition_spec (d : DraggableElement)
    (children : List ChildElement) (draggableId : String) (endIndex : Nat)
    (hp : d.hasParentNode = true) :
    getPlaceholderPosition (some d) (getClientYChildren children draggableId endIndex) =
      some (20,
        2 + ((getClientYChildren children draggableId endIndex).map
              (fun c => c.clientHeight)).sum +
          8 * (getClientYChildren children draggableId endIndex).length,
        d.clientWidth, d.clientHeight) ∧
    (∀ l, getPlaceholderPosition none l = none) ∧
    (∀ (d2 : DraggableElement) (l : List ChildElement), d2.hasParentNode = false →
      getPlaceholderPosition (some d2) l = none) := by
  refine ⟨?_, fun l => rfl, ?_⟩
  · have hY := foldl_clientY (getClientYChildren children draggableId endIndex) 2
    simp only [getPlaceholderPosition]
    rw [if_pos hp, hY]
  · intro d2 l h2
    simp [getPlaceholderPosition, h2]

/-- Witness for C5: a container with four children, one of which lacks the
draggable attribute and one of which is the dragged element itself. -/
theorem getPlaceholderPosition_spec_witness :
    (⟨true, 50, 30⟩ : DraggableElement).hasParentNode = true ∧
    (getPlaceholderPosition (some ⟨true, 50, 30⟩)
        (getClientYChildren [⟨10, some "s1"⟩, ⟨20, none⟩, ⟨30, some "d"⟩, ⟨40, some "s2"⟩]
          "d" 2) =
      some (20,
        2 + ((getClientYChildren [⟨10, some "s1"⟩, ⟨20, none⟩, ⟨30, some "d"⟩, ⟨40, some "s2"⟩]
              "d" 2).map (fun c => c.clientHeight)).sum +
          8 * (getClientYChildren [⟨10, some "s1"⟩, ⟨20, none⟩, ⟨30, some "d"⟩, ⟨40, some "s2"⟩]
              "d" 2).length,
        (⟨true, 50, 30⟩ : DraggableElement).clientWidth,
        (⟨true, 50, 30⟩ : DraggableElement).clientHeight) ∧
    (∀ l, getPlaceholderPosition none l = none) ∧
    (∀ (d2 : DraggableElement) (l : List ChildElement), d2.hasParentNode = false →
      getPlaceholderPosition (some d2) l = none)) :=
  ⟨rfl, getPlaceholderPosition_spec ⟨true, 50, 30⟩
    [⟨10, some "s1"⟩, ⟨20, none⟩, ⟨30, some "d"⟩, ⟨40, some "s2"⟩] "d" 2 rfl⟩

/-! ### Claim C6: promoting or discarding the pending lane -/

/-- Claim C6: submitting a non-empty value from the pending lane's input
appends exactly one new lane under the fresh generated key, titled with the
value, after all existing lanes, together with an empty item sequence for
that key, and clears the adding-lane flag; submitting the empty value (as
Escape does) leaves the lanes and items collections unchanged. -/
theorem exitPendingLane_spec (arrangedLanes : TBoardLanes)
    (arrangedItems : IPreparedBoardItems) (newLaneKey value : String)
    (hfresh1 : lookupA arrangedLanes newLaneKey = none)
    (hfresh2 : lookupA arrangedItems newLaneKey = none) :
    (value.length > 0 →
      exitPendingLane arrangedLanes arrangedItems newLaneKey value =
        { arrangedLanes := arrangedLanes ++ [(newLaneKey, { title := value })]
          arrangedItems := arrangedItems ++ [(newLaneKey, [])]
          addingLane := false }) ∧
    (value.length = 0 →
      exitPendingLane arrangedLanes arrangedItems newLaneKey value =
        { arrangedLanes := arrangedLanes
          arrangedItems := arrangedItems
          addingLane := false }) := by
  constructor
  · intro hv
    unfold exitPendingLane
    rw [if_pos hv]
    simp only [objectAssign, hfresh1, hfresh2, Option.isSome_none, Bool.false_eq_true,
      if_false]
  · intro hv
    unfold exitPendingLane
    rw [if_neg (by omega)]

/-- Witness for C6: naming the pending lane `New` on a one-lane board. -/
theorem exitPendingLane_spec_witness :
    lookupA ([("A", (⟨"Lane A"⟩ : TBoardLane))] : TBoardLanes) "sl1" = none ∧
    lookupA ([("A", [])] : IPreparedBoardItems) "sl1" = none ∧
    ((("New" : String).length > 0 →
      exitPendingLane [("A", ⟨"Lane A"⟩)] [("A", [])] "sl1" "New" =
        { arrangedLanes := [("A", ⟨"Lane A"⟩)] ++ [("sl1", { title := "New" })]
          arrangedItems := [("A", [])] ++ [("sl1", [])]
          addingLane := false }) ∧
    (("New" : String).length = 0 →
      exitPendingLane [("A", ⟨"Lane A"⟩)] [("A", [])] "sl1" "New" =
        { arrangedLanes := [("A", ⟨"Lane A"⟩)]
          arrangedItems := [("A", [])]
          addingLane := false })) :=
  ⟨rfl, rfl, exitPendingLane_spec [("A", ⟨"Lane A"⟩)] [("A", [])] "sl1" "New" rfl rfl⟩

end Board
